import Mathlib

/-! Verification development for the HackRPI-2025-Wurst RAG pipeline.

The definitions below are a shallow embedding of the Python sources
(`backend/chunking.py`, `backend/retrieval.py`, `backend/lsh_indexer.py`,
`backend/db.py`, `backend/chat_service.py`, `backend/embeddings.py`).
Python strings are modelled as Lean `String` (operating on the character
list `String.data`, which matches Python's code-point semantics of `len`
and slicing), Python `int` as `ℤ`/`ℕ`, Python `float` as `ℚ`, Python
exceptions as `Except`, and external effects (database, Redis bucket
store, embedding gateway) as explicit oracles / state passing.
-/

/-! ## Python string primitives -/

/-- Python `len(s)`: number of characters of the string. -/
def pyLen (s : String) : Nat := s.data.length

/-- Python slice `s[a:b]` for `0 ≤ a ≤ b`: the characters from index `a`
up to exclusive index `b`, clamped at the end of the string. -/
def pySlice (s : String) (a b : Nat) : String := ⟨(s.data.drop a).take (b - a)⟩

/-- Python `not s or not s.strip()`: the string is empty or whitespace-only. -/
def pyBlank (s : String) : Bool := s.data.isEmpty || s.data.all Char.isWhitespace

/-- Python `int(s)` on the canonical decimal rendering of an integer. -/
def digitsToNat (l : List Char) : Nat := l.foldl (fun n c => n * 10 + (c.toNat - 48)) 0

/-- Python `int(s)` for strings produced by `str` on an `int`. -/
def pyInt (s : String) : ℤ :=
  match s.data with
  | '-' :: rest => -(digitsToNat rest : ℤ)
  | l => (digitsToNat l : ℤ)

/-- Decimal digit character for `d < 10`. -/
def digitChar (d : ℕ) : Char := Char.ofNat (48 + d)

/-- Decimal digits of `n`, least significant first, driven by fuel. -/
def natDigitsRev (fuel : ℕ) (n : ℕ) : List ℕ :=
  match fuel with
  | 0 => []
  | f + 1 => if n < 10 then [n] else (n % 10) :: natDigitsRev f (n / 10)

/-- Python `str(i)` on an `int`. -/
def pyStr (i : ℤ) : String :=
  let n := i.natAbs
  let ds := (natDigitsRev (n + 1) n).reverse.map digitChar
  if i < 0 then ⟨'-' :: ds⟩ else ⟨ds⟩

/-! ## Chunker (`backend/chunking.py`, `chunk_text`)

`chunk_text` first handles empty/whitespace text and text no longer than
`chunk_size`, then validates the parameters, then runs the sliding-window
while-loop.  The loop is embedded with explicit fuel (`pyLen text` suffices:
the validated step `chunk_size - overlap` is at least 1, so the loop runs at
most `pyLen text` iterations). -/

/-- The while-loop of `chunk_text` (chunking.py lines 52-71): starting at
`start`, take the slice `text[start : start+size]`, advance `start` by
`step = chunk_size - overlap`, and stop after a chunk whose end reaches the
end of the text. -/
def chunkLoop (t : String) (size step : Nat) : Nat → Nat → List String
  | _, 0 => []
  | start, fuel + 1 =>
    if start < pyLen t then
      let c := pySlice t start (start + size)
      if pyLen t ≤ start + size then [c]
      else c :: chunkLoop t size step (start + step) fuel
    else []

/-- `chunk_text(text, chunk_size, overlap)` from chunking.py.  A raised
`ValueError` is modelled as `Except.error` with the message prefix. -/
def chunk_text (text : String) (chunk_size overlap : ℤ) : Except String (List String) :=
  if pyBlank text then .ok []
  else if (pyLen text : ℤ) ≤ chunk_size then .ok [text]
  else if chunk_size ≤ 0 then .error "chunk_size must be positive"
  else if overlap < 0 then .error "overlap must be non-negative"
  else if chunk_size ≤ overlap then .error "overlap must be less than chunk_size"
  else .ok (chunkLoop text chunk_size.toNat (chunk_size - overlap).toNat 0 (pyLen text))

/-! ## Hybrid retriever (`backend/retrieval.py`, `get_context_chunks`)

The external calls made by `get_context_chunks` and its LSH branch are
modelled as oracles in an environment record; `PyErr` distinguishes
`ValueError` (re-raised as-is by the outer handler) from every other
exception (wrapped by the outer handler). -/

/-- Python exception classes relevant to `get_context_chunks`. -/
inductive PyErr where
  | valueError (msg : String)
  | exn (msg : String)

/-- Oracle environment for `get_context_chunks`: the config flag
`USE_LSH_SEARCH` and the outcomes of `embed_query`, of the whole
`lsh_hybrid_search` path (which re-raises any internal failure), and of
`search_similar_chunks`. -/
structure RetrievalEnv where
  use_lsh_search : Bool
  embed_query : String → Except PyErr (List ℚ)
  lsh_hybrid_search : String → String → Nat → Except PyErr (List String)
  search_similar_chunks : List ℚ → String → Nat → Except PyErr (List String)

/-- `get_context_chunks(question, session_id, top_k)` from retrieval.py:
empty-question guard, LSH-or-direct dispatch with fallback on any LSH
exception, and the outer handler that re-raises `ValueError` and wraps
every other exception. -/
def get_context_chunks (env : RetrievalEnv) (question session_id : String)
    (top_k : Nat) : Except PyErr (List String) :=
  if pyBlank question then .error (.valueError "Question cannot be empty")
  else
    let direct : Except PyErr (List String) :=
      match env.embed_query question with
      | .error e => .error e
      | .ok emb => env.search_similar_chunks emb session_id top_k
    let body : Except PyErr (List String) :=
      if env.use_lsh_search then
        match env.lsh_hybrid_search question session_id top_k with
        | .ok chunks => .ok chunks
        | .error _ => direct
      else direct
    match body with
    | .ok chunks => .ok chunks
    | .error (.valueError m) => .error (.valueError m)
    | .error (.exn m) => .error (.exn ("Failed to retrieve relevant context: " ++ m))

/-- C1: if LSH mode is enabled and the LSH query path fails with any
exception, `get_context_chunks` behaves exactly as the direct-path run for
the same question, session and topK (the LSH failure is never observed),
and in particular returns exactly the result of `search_similar_chunks`
whenever the direct search succeeds. -/
theorem get_context_chunks_lsh_fallback (env : RetrievalEnv) (q s : String)
    (k : Nat) (e : PyErr) (hu : env.use_lsh_search = true)
    (hf : env.lsh_hybrid_search q s k = .error e) :
    get_context_chunks env q s k
      = get_context_chunks { env with use_lsh_search := false } q s k ∧
    ∀ emb r, pyBlank q = false → env.embed_query q = .ok emb →
      env.search_similar_chunks emb s k = .ok r →
      get_context_chunks env q s k = .ok r := by
  constructor
  · by_cases hb : pyBlank q <;> simp [get_context_chunks, hu, hf, hb]
  · intro emb r hb he hs
    simp [get_context_chunks, hu, hf, hb, he, hs]

/-- Concrete environment exercising the C1 fallback: the LSH path raises,
the embedding gateway and the direct pgvector search succeed. -/
def c1Env : RetrievalEnv where
  use_lsh_search := true
  embed_query := fun _ => .ok [(1 : ℚ)]
  lsh_hybrid_search := fun _ _ _ => .error (.exn "forced bucket-store failure")
  search_similar_chunks := fun _ _ _ => .ok ["chunk A", "chunk B"]

/-- Witness for C1 at a concrete input. -/
theorem get_context_chunks_lsh_fallback_witness :
    get_context_chunks c1Env "what is LSH" "sess1" 2
      = get_context_chunks { c1Env with use_lsh_search := false } "what is LSH" "sess1" 2 ∧
    get_context_chunks c1Env "what is LSH" "sess1" 2 = .ok ["chunk A", "chunk B"] := by
  have h := get_context_chunks_lsh_fallback c1Env "what is LSH" "sess1" 2
    (.exn "forced bucket-store failure") rfl rfl
  exact ⟨h.1, h.2 [(1 : ℚ)] ["chunk A", "chunk B"] rfl rfl rfl⟩

/-! ## LSH query pipeline (`backend/lsh_indexer.py`, `query_similar_chunks`)

`query_similar_chunks` obtains candidates from `LSHRS.get_top_k` (an
external library call, modelled as an oracle), distinguishes the two result
shapes the code handles with `isinstance` checks, optionally reranks
manually with cosine similarity, filters by the similarity threshold,
sorts descending (Python `list.sort(key=..., reverse=True)` — a stable
sort, embedded here as a stable insertion sort, which produces the same
list as every stable sort), and truncates to `top_k`. -/

/-- Dot product `np.dot` of two equal-length vectors. -/
def dotRat (a b : List ℚ) : ℚ := (List.zipWith (· * ·) a b).sum

/-- The cosine-similarity computation of the manual rerank branch
(lsh_indexer.py lines 221-231), parametrized by the norm function
`np.linalg.norm` (whose square-root arithmetic is kept abstract; only
its comparison with zero steers the control flow): if either norm is
zero the similarity is defined to be `0.0`, otherwise it is
`dot(q,v) / (norm q * norm v)`. -/
def cosineSimWith (norm : List ℚ → ℚ) (q v : List ℚ) : ℚ :=
  if norm q = 0 ∨ norm v = 0 then 0 else dotRat q v / (norm q * norm v)

/-- The two result shapes of `LSHRS.get_top_k` distinguished by
`query_similar_chunks`: a bare list of integer chunk ids, or a list of
`(chunk_id, similarity)` pairs. -/
inductive LshResult where
  | ids (l : List ℤ)
  | pairs (l : List (String × ℚ))

/-- Stable insert used to embed Python's stable sort: `p` is placed before
the first element that should not precede it. -/
def insertBy (le : α → α → Bool) (p : α) : List α → List α
  | [] => [p]
  | q :: qs => if le p q then p :: q :: qs else q :: insertBy le p qs

/-- Stable sort: fold `insertBy` over the list from the right, so earlier
elements are inserted last and stay in front of equal elements. -/
def stableSortBy (le : α → α → Bool) (l : List α) : List α := l.foldr (insertBy le) []

/-- Python `filtered_results.sort(key=lambda x: x[1], reverse=True)`:
stable sort by similarity, descending. -/
def sortBySimDesc (l : List (String × ℚ)) : List (String × ℚ) :=
  stableSortBy (fun p q => decide (q.2 ≤ p.2)) l

/-- Phases 2–3 of `query_similar_chunks`: the `reranked_results` list.
In the bare-ids branch the code refetches the exact vectors
(`_fetch_vectors_for_lshrs`, modelled as the oracle `fetch`) and computes
cosine similarities manually; in the pairs branch the pairs are used as
returned. -/
def rerankedResults (norm : List ℚ → ℚ) (fetch : List String → List (String × List ℚ))
    (cands : LshResult) (query_embedding : List ℚ) : List (String × ℚ) :=
  match cands with
  | .ids l => (fetch (l.map pyStr)).map (fun p => (p.1, cosineSimWith norm query_embedding p.2))
  | .pairs l => l

/-- `query_similar_chunks(query_embedding, top_k)` from lsh_indexer.py:
candidate retrieval with a fixed over-fetch of 50, rerank, inclusive
threshold filter, stable descending sort, truncation to `top_k`, and
conversion of the string ids back to integers.  (The code's early return
on an empty candidate list yields `[]`, which coincides with running the
remaining phases on the empty list.) -/
def query_similar_chunks (norm : List ℚ → ℚ)
    (fetch : List String → List (String × List ℚ))
    (get_top_k : List ℚ → Nat → LshResult) (similarity_threshold : ℚ)
    (query_embedding : List ℚ) (top_k : Nat) : List ℤ :=
  let reranked := rerankedResults norm fetch (get_top_k query_embedding 50) query_embedding
  let filtered := reranked.filter (fun p => similarity_threshold ≤ p.2)
  let sorted := sortBySimDesc filtered
  (sorted.take top_k).map (fun p => pyInt p.1)

/-- C3: in the rerank step of `query_similar_chunks`, the similarity
threshold τ is an inclusive lower bound — a candidate is retained by the
filter iff its similarity is `≥ τ`; in particular a candidate at exactly
τ is kept and every candidate strictly below τ is discarded. -/
theorem rerank_threshold_inclusive (norm : List ℚ → ℚ)
    (fetch : List String → List (String × List ℚ))
    (get_top_k : List ℚ → Nat → LshResult) (τ : ℚ) (q : List ℚ)
    (p : String × ℚ) (hp : p ∈ rerankedResults norm fetch (get_top_k q 50) q) :
    p ∈ (rerankedResults norm fetch (get_top_k q 50) q).filter (fun x => τ ≤ x.2)
      ↔ τ ≤ p.2 := by
  simp [List.mem_filter, hp]

/-- Witness for C3: with threshold τ = 7, a candidate at exactly 7 is
retained and one strictly below (similarity 5) would not satisfy the
filter predicate. -/
theorem rerank_threshold_inclusive_witness :
    (("17", (7 : ℚ)) ∈ (rerankedResults (fun _ => 1) (fun _ => [])
        ((fun _ _ => .pairs [("17", (7 : ℚ)), ("3", 5)]) [(1 : ℚ)] 50)
        [(1 : ℚ)]).filter (fun x => (7 : ℚ) ≤ x.2)
      ↔ (7 : ℚ) ≤ (("17", (7 : ℚ)) : String × ℚ).2) ∧
    ¬ ((7 : ℚ) ≤ (("3", (5 : ℚ)) : String × ℚ).2) := by
  refine ⟨rerank_threshold_inclusive (fun _ => 1) (fun _ => [])
    (fun _ _ => .pairs [("17", (7 : ℚ)), ("3", 5)]) 7 [(1 : ℚ)]
    ("17", (7 : ℚ)) (by decide), by decide⟩

/-- C10: the manual rerank of `query_similar_chunks` guards the cosine
similarity: whenever either vector has zero norm the similarity is defined
to be `0.0`, and the division is only ever taken with a nonzero
denominator `norm q * norm v`. -/
theorem cosine_zero_norm_guard (norm : List ℚ → ℚ) (q v : List ℚ) :
    ((norm q = 0 ∨ norm v = 0) → cosineSimWith norm q v = 0) ∧
    (norm q ≠ 0 → norm v ≠ 0 →
      cosineSimWith norm q v = dotRat q v / (norm q * norm v) ∧
        norm q * norm v ≠ 0) := by
  constructor
  · intro h
    simp [cosineSimWith, h]
  · intro hq hv
    constructor
    · simp [cosineSimWith, hq, hv]
    · exact mul_ne_zero hq hv

/-- A concrete stand-in for `np.linalg.norm` used to exercise C10: zero on
the all-zeros vector, one otherwise. -/
def c10norm (v : List ℚ) : ℚ := if v.all (fun x => x = 0) then 0 else 1

/-- Witness for C10: a zero-norm query vector yields similarity 0, and for
two nonzero-norm vectors the denominator of the division is nonzero. -/
theorem cosine_zero_norm_guard_witness :
    cosineSimWith c10norm [0, 0] [1, 2] = 0 ∧ c10norm [1] * c10norm [2] ≠ 0 := by
  refine ⟨(cosine_zero_norm_guard c10norm [0, 0] [1, 2]).1 (Or.inl (by decide)), ?_⟩
  exact ((cosine_zero_norm_guard c10norm [1] [2]).2 (by decide) (by decide)).2

/-- C2 (code bug): `query_similar_chunks` breaks similarity ties by the
stable sort's preservation of candidate order, not by ascending chunk
identity.  With two candidates of equal similarity 1 (ids 5 and 2, in
that candidate order) and threshold 0, the code returns `[5, 2]`, whereas
the claimed ascending-identity tie-break requires `[2, 5]`. -/
theorem query_similar_chunks_tie_break_counterexample :
    query_similar_chunks (fun _ => 1) (fun _ => [])
        (fun _ _ => .pairs [("5", (1 : ℚ)), ("2", (1 : ℚ))]) 0 [(1 : ℚ)] 2
      = [5, 2] ∧
    ((5 : ℤ), (1 : ℚ)).2 = ((2 : ℤ), (1 : ℚ)).2 ∧ ¬ ((5 : ℤ) < 2) := by
  refine ⟨by decide, by decide, by decide⟩

/-! ## LSH batch indexing (`backend/lsh_indexer.py` `index_documents`,
`backend/db.py` `get_unindexed_chunks` / `mark_document_as_indexed`)

The database tables and the Redis bucket store are modelled as one explicit
state.  A raised exception from `self.lsh.index` (the only fallible step the
claims exercise) aborts the run, carrying the state reached so far; `failAt`
says which write calls raise. -/

/-- A row of the `documents` table (the columns the indexing path reads). -/
structure DocRow where
  id : ℤ
  session : Option String
  lsh_indexed : Bool
  deriving DecidableEq

/-- A row of the `document_chunks` table (the columns the indexing path reads). -/
structure ChunkRow where
  id : ℤ
  docId : ℤ
  chunkIndex : ℤ
  embedding : List ℚ
  deriving DecidableEq

/-- Combined database + bucket-store state threaded through `index_documents`:
`written` is the flat sequence of chunk ids written into the LSH bucket store,
`writeCalls` counts the `self.lsh.index` invocations made so far. -/
structure SysState where
  docs : List DocRow
  chunks : List ChunkRow
  written : List String
  writeCalls : ℕ
  deriving DecidableEq

/-- The WHERE clause of `get_unindexed_chunks`: the chunk joins a document
row that is not yet `lsh_indexed`, with the optional `session_id` filter
(Python adds `AND d.session_id = :session_id` only when a session id is
passed). -/
def chunkMatches (docs : List DocRow) (session_id : Option String) (c : ChunkRow) : Bool :=
  docs.any (fun d => d.id == c.docId && !d.lsh_indexed &&
    (match session_id with
     | none => true
     | some s => d.session == some s))

/-- `get_unindexed_chunks(session_id)` from db.py: select `(id, document_id,
embedding)` for chunks of unindexed documents, `ORDER BY dc.document_id,
dc.chunk_index` (a stable sort of the selected rows). -/
def get_unindexed_chunks (st : SysState) (session_id : Option String) :
    List (ℤ × ℤ × List ℚ) :=
  (stableSortBy
      (fun a b : ChunkRow =>
        decide (a.docId < b.docId ∨ (a.docId = b.docId ∧ a.chunkIndex ≤ b.chunkIndex)))
      (st.chunks.filter (chunkMatches st.docs session_id))).map
    (fun c => (c.id, c.docId, c.embedding))

/-- One step of the `chunks_by_document` dict grouping in `index_documents`:
append the chunk to the entry of its document, or create a new entry at the
end (Python dict insertion order). -/
def addToGroups (g : List (ℤ × List (ℤ × List ℚ))) (docId : ℤ) (c : ℤ × List ℚ) :
    List (ℤ × List (ℤ × List ℚ)) :=
  match g with
  | [] => [(docId, [c])]
  | (d, cs) :: rest =>
    if d = docId then (d, cs ++ [c]) :: rest else (d, cs) :: addToGroups rest docId c

/-- The `chunks_by_document` grouping loop of `index_documents`. -/
def groupByDoc (l : List (ℤ × ℤ × List ℚ)) : List (ℤ × List (ℤ × List ℚ)) :=
  l.foldl (fun g c => addToGroups g c.2.1 (c.1, c.2.2)) []

/-- Fuel-driven splitting of a list into consecutive batches of `size`
(the `range(0, len(chunk_ids), BATCH_SIZE)` loop). -/
def toBatchesGo (size : ℕ) : ℕ → List α → List (List α)
  | 0, _ => []
  | _ + 1, [] => []
  | f + 1, a :: l => ((a :: l).take size) :: toBatchesGo size f ((a :: l).drop size)

/-- Split a list into consecutive batches of `size`. -/
def toBatches (size : ℕ) (l : List α) : List (List α) := toBatchesGo size l.length l

/-- `BATCH_SIZE` from lsh_indexer.py. -/
def BATCH_SIZE : ℕ := 1000

/-- `mark_document_as_indexed(document_id)` from db.py: set
`lsh_indexed = TRUE` on the matching document rows. -/
def mark_document_as_indexed (st : SysState) (docId : ℤ) : SysState :=
  { st with docs := st.docs.map (fun d =>
      if d.id = docId then { d with lsh_indexed := true } else d) }

/-- One `self.lsh.index(batch_ids, batch_embeddings)` call: either the batch
of chunk ids is appended to the bucket store, or the call raises (as dictated
by `failAt`) and the store is unchanged. -/
def lshIndexBatch (failAt : ℕ → Bool) (st : SysState) (batchIds : List String) :
    Except SysState SysState :=
  if failAt st.writeCalls then .error { st with writeCalls := st.writeCalls + 1 }
  else .ok { st with written := st.written ++ batchIds, writeCalls := st.writeCalls + 1 }

/-- The inner batch loop of `index_documents` for one document, threading the
`indexed_count` accumulator. -/
def writeBatches (failAt : ℕ → Bool) :
    List (List String) → SysState → ℕ → Except SysState (SysState × ℕ)
  | [], st, n => .ok (st, n)
  | b :: bs, st, n =>
    match lshIndexBatch failAt st b with
    | .error st' => .error st'
    | .ok st' => writeBatches failAt bs st' (n + b.length)

/-- The per-document loop of `index_documents`: write all batches of the
document's chunk ids, then mark the document as indexed. -/
def indexDocsLoop (failAt : ℕ → Bool) :
    List (ℤ × List (ℤ × List ℚ)) → SysState → ℕ → Except SysState (SysState × ℕ)
  | [], st, n => .ok (st, n)
  | (docId, chs) :: rest, st, n =>
    match writeBatches failAt (toBatches BATCH_SIZE (chs.map (fun c => pyStr c.1))) st n with
    | .error st' => .error st'
    | .ok (st', n') => indexDocsLoop failAt rest (mark_document_as_indexed st' docId) n'

/-- `index_documents(session_id)` from lsh_indexer.py: fetch the unindexed
chunks, return 0 if there are none, otherwise group by document and run the
per-document loop.  An uncaught exception propagates with the state reached. -/
def index_documents (failAt : ℕ → Bool) (st : SysState) (session_id : Option String) :
    Except SysState (SysState × ℕ) :=
  let unindexed := get_unindexed_chunks st session_id
  if unindexed.length = 0 then .ok (st, 0)
  else indexDocsLoop failAt (groupByDoc unindexed) st 0

/-- The state in which a run of `index_documents` leaves the system, whether
it returned or raised. -/
def stateOf : Except SysState (SysState × ℕ) → SysState
  | .ok (st, _) => st
  | .error st => st

/-- The document with id `docId` is marked `lsh_indexed` in the database. -/
def docIndexed (st : SysState) (docId : ℤ) : Bool :=
  st.docs.any (fun d => d.id == docId && d.lsh_indexed)

/-- The optional session filter of the unindexed-chunks scan, as a predicate
on a document row. -/
def sessionMatches (session_id : Option String) (d : DocRow) : Bool :=
  match session_id with
  | none => true
  | some s => d.session == some s

/-! ### Helper lemmas about the sorting, batching and grouping combinators -/

lemma mem_insertBy {le : α → α → Bool} {p x : α} :
    ∀ {l : List α}, x ∈ insertBy le p l ↔ x = p ∨ x ∈ l := by
  intro l
  induction l with
  | nil => simp [insertBy]
  | cons q qs ih =>
    by_cases h : le p q
    · simp [insertBy, h]
    · simp [insertBy, h, ih]
      tauto

lemma mem_stableSortBy {le : α → α → Bool} {x : α} :
    ∀ {l : List α}, x ∈ stableSortBy le l ↔ x ∈ l := by
  intro l
  induction l with
  | nil => simp [stableSortBy]
  | cons q qs ih =>
    simp only [stableSortBy, List.foldr_cons] at *
    rw [mem_insertBy]
    simp [ih]

lemma toBatchesGo_flatten {size : ℕ} (hs : 0 < size) :
    ∀ (fuel : ℕ) (l : List α), l.length ≤ fuel → (toBatchesGo size fuel l).flatten = l := by
  intro fuel
  induction fuel with
  | zero =>
    intro l hl
    have : l = [] := List.eq_nil_of_length_eq_zero (Nat.le_zero.mp hl)
    subst this
    rfl
  | succ f ih =>
    intro l hl
    cases l with
    | nil => rfl
    | cons a t =>
      have hdrop : ((a :: t).drop size).length ≤ f := by
        rw [List.length_drop]
        simp only [List.length_cons] at hl ⊢
        omega
      simp only [toBatchesGo, List.flatten_cons, ih _ hdrop, List.take_append_drop]

lemma toBatches_flatten {size : ℕ} (hs : 0 < size) (l : List α) :
    (toBatches size l).flatten = l :=
  toBatchesGo_flatten hs l.length l le_rfl

lemma nodup_keys_unique {β : Type _} :
    ∀ {l : List (ℤ × β)}, (l.map Prod.fst).Nodup →
      ∀ {d : ℤ} {b1 b2 : β}, (d, b1) ∈ l → (d, b2) ∈ l → b1 = b2 := by
  intro l
  induction l with
  | nil => intro _ _ _ _ h; simp at h
  | cons e t ih =>
    intro hn d b1 b2 h1 h2
    simp only [List.map_cons, List.nodup_cons] at hn
    rcases List.mem_cons.mp h1 with h1 | h1 <;> rcases List.mem_cons.mp h2 with h2 | h2
    · have h12 : (d, b1) = (d, b2) := h1.trans h2.symm
      exact congrArg Prod.snd h12
    · exfalso
      exact hn.1 (h1 ▸ (List.mem_map.mpr ⟨(d, b2), h2, by simp [← h1]⟩))
    · exfalso
      exact hn.1 (h2 ▸ (List.mem_map.mpr ⟨(d, b1), h1, by simp [← h2]⟩))
    · exact ih hn.2 h1 h2

lemma addToGroups_self (g : List (ℤ × List (ℤ × List ℚ))) (docId : ℤ) (c : ℤ × List ℚ) :
    ∃ cs, (docId, cs) ∈ addToGroups g docId c ∧ c ∈ cs := by
  induction g with
  | nil => exact ⟨[c], by simp [addToGroups]⟩
  | cons e t ih =>
    obtain ⟨d, cs⟩ := e
    by_cases h : d = docId
    · subst h
      exact ⟨cs ++ [c], by simp [addToGroups]⟩
    · obtain ⟨cs', hmem, hc⟩ := ih
      exact ⟨cs', by simp [addToGroups, h, hmem], hc⟩

lemma addToGroups_preserve {g : List (ℤ × List (ℤ × List ℚ))} {d' : ℤ}
    {cs' : List (ℤ × List ℚ)} (docId : ℤ) (c : ℤ × List ℚ) (h : (d', cs') ∈ g) :
    ∃ cs'', (d', cs'') ∈ addToGroups g docId c ∧ cs' ⊆ cs'' := by
  induction g with
  | nil => simp at h
  | cons e t ih =>
    obtain ⟨d, cs⟩ := e
    rcases List.mem_cons.mp h with h | h
    · by_cases hd : d = docId
      · have hd' : d' = d := congrArg Prod.fst h
        have hcs : cs' = cs := congrArg Prod.snd h
        refine ⟨cs ++ [c], ?_, by rw [hcs]; exact List.subset_append_left _ _⟩
        simp only [addToGroups, if_pos hd]
        rw [hd']
        exact List.mem_cons_self _ _
      · refine ⟨cs', ?_, List.Subset.refl _⟩
        simp only [addToGroups, if_neg hd]
        rw [h]
        exact List.mem_cons_self _ _
    · by_cases hd : d = docId
      · subst hd
        refine ⟨cs', ?_, List.Subset.refl _⟩
        simp only [addToGroups, if_pos rfl]
        exact List.mem_cons_of_mem _ h
      · obtain ⟨cs'', hmem, hsub⟩ := ih h
        refine ⟨cs'', ?_, hsub⟩
        simp only [addToGroups, if_neg hd]
        exact List.mem_cons_of_mem _ hmem

lemma addToGroups_sources {g : List (ℤ × List (ℤ × List ℚ))} {d' : ℤ}
    {cs' : List (ℤ × List ℚ)} {docId : ℤ} {c : ℤ × List ℚ}
    (h : (d', cs') ∈ addToGroups g docId c) :
    ∀ p ∈ cs', (∃ cs0, (d', cs0) ∈ g ∧ p ∈ cs0) ∨ (d' = docId ∧ p = c) := by
  induction g with
  | nil =>
    intro p hp
    simp only [addToGroups, List.mem_singleton] at h
    obtain ⟨hd, hcs⟩ := Prod.mk.injEq .. ▸ h
    subst hd; subst hcs
    simp only [List.mem_singleton] at hp
    exact Or.inr ⟨rfl, hp⟩
  | cons e t ih =>
    obtain ⟨d, cs⟩ := e
    intro p hp
    by_cases hd : d = docId
    · subst hd
      simp only [addToGroups, if_pos rfl] at h
      rcases List.mem_cons.mp h with h | h
      · obtain ⟨hd', hcs⟩ := Prod.mk.injEq .. ▸ h
        subst hd'; subst hcs
        rcases List.mem_append.mp hp with hp | hp
        · exact Or.inl ⟨cs, List.mem_cons_self _ _, hp⟩
        · simp only [List.mem_singleton] at hp
          exact Or.inr ⟨rfl, hp⟩
      · exact Or.inl ⟨cs', List.mem_cons_of_mem _ h, hp⟩
    · simp only [addToGroups, if_neg hd] at h
      rcases List.mem_cons.mp h with h | h
      · obtain ⟨hd', hcs⟩ := Prod.mk.injEq .. ▸ h
        subst hd'; subst hcs
        exact Or.inl ⟨cs', List.mem_cons_self _ _, hp⟩
      · rcases ih h p hp with ⟨cs0, hmem, hp0⟩ | hr
        · exact Or.inl ⟨cs0, List.mem_cons_of_mem _ hmem, hp0⟩
        · exact Or.inr hr

lemma addToGroups_keys (g : List (ℤ × List (ℤ × List ℚ))) (docId : ℤ) (c : ℤ × List ℚ) :
    (addToGroups g docId c).map Prod.fst =
      if docId ∈ g.map Prod.fst then g.map Prod.fst else g.map Prod.fst ++ [docId] := by
  induction g with
  | nil => simp [addToGroups]
  | cons e t ih =>
    obtain ⟨d, cs⟩ := e
    by_cases hd : d = docId
    · subst hd
      simp [addToGroups]
    · simp only [addToGroups, if_neg hd, List.map_cons, ih, List.mem_cons]
      by_cases hmem : docId ∈ t.map Prod.fst
      · simp [hmem, Ne.symm hd]
      · simp [hmem, Ne.symm hd]

lemma addToGroups_keys_nodup {g : List (ℤ × List (ℤ × List ℚ))}
    (h : (g.map Prod.fst).Nodup) (docId : ℤ) (c : ℤ × List ℚ) :
    ((addToGroups g docId c).map Prod.fst).Nodup := by
  rw [addToGroups_keys]
  by_cases hmem : docId ∈ g.map Prod.fst
  · simpa [hmem]
  · simp only [hmem, if_false]
    exact h.append (List.nodup_singleton _) (by simpa using hmem)

lemma addToGroups_nonempty {g : List (ℤ × List (ℤ × List ℚ))}
    (h : ∀ e ∈ g, e.2 ≠ []) (docId : ℤ) (c : ℤ × List ℚ) :
    ∀ e ∈ addToGroups g docId c, e.2 ≠ [] := by
  induction g with
  | nil =>
    intro e he
    simp only [addToGroups, List.mem_singleton] at he
    subst he; simp
  | cons x t ih =>
    obtain ⟨d, cs⟩ := x
    intro e he
    by_cases hd : d = docId
    · subst hd
      simp only [addToGroups, if_pos rfl] at he
      rcases List.mem_cons.mp he with he | he
      · subst he; simp
      · exact h e (List.mem_cons_of_mem _ he)
    · simp only [addToGroups, if_neg hd] at he
      rcases List.mem_cons.mp he with he | he
      · subst he; exact h _ (List.mem_cons_self _ _)
      · exact ih (fun e' he' => h e' (List.mem_cons_of_mem _ he')) e he

lemma groupFold_complete :
    ∀ (l : List (ℤ × ℤ × List ℚ)) (acc : List (ℤ × List (ℤ × List ℚ)))
      (id d : ℤ) (emb : List ℚ),
      ((∃ cs, (d, cs) ∈ acc ∧ (id, emb) ∈ cs) ∨ (id, d, emb) ∈ l) →
      ∃ cs, (d, cs) ∈ l.foldl (fun g c => addToGroups g c.2.1 (c.1, c.2.2)) acc ∧
        (id, emb) ∈ cs := by
  intro l
  induction l with
  | nil =>
    intro acc id d emb h
    rcases h with h | h
    · exact h
    · simp at h
  | cons x t ih =>
    intro acc id d emb h
    simp only [List.foldl_cons]
    rcases h with ⟨cs, hmem, hin⟩ | h
    · obtain ⟨cs'', hmem'', hsub⟩ := addToGroups_preserve x.2.1 (x.1, x.2.2) hmem
      exact ih _ id d emb (Or.inl ⟨cs'', hmem'', hsub hin⟩)
    · rcases List.mem_cons.mp h with h | h
      · have hx1 : x.1 = id := (congrArg (fun y => y.1) h).symm
        have hx2 : x.2.1 = d := by
          have := congrArg (fun y => y.2.1) h; exact this.symm
        have hx3 : x.2.2 = emb := by
          have := congrArg (fun y => y.2.2) h; exact this.symm
        obtain ⟨cs, hmem, hc⟩ := addToGroups_self acc x.2.1 (x.1, x.2.2)
        have hmem' : (d, cs) ∈ addToGroups acc x.2.1 (x.1, x.2.2) := by
          rw [← hx2]; exact hmem
        rw [hx1, hx3] at hc
        exact ih _ id d emb (Or.inl ⟨cs, hmem', hc⟩)
      · exact ih _ id d emb (Or.inr h)

lemma groupFold_sound :
    ∀ (l : List (ℤ × ℤ × List ℚ)) (acc : List (ℤ × List (ℤ × List ℚ)))
      (d : ℤ) (cs : List (ℤ × List ℚ)),
      (d, cs) ∈ l.foldl (fun g c => addToGroups g c.2.1 (c.1, c.2.2)) acc →
      ∀ p ∈ cs, (∃ cs0, (d, cs0) ∈ acc ∧ p ∈ cs0) ∨ (p.1, d, p.2) ∈ l := by
  intro l
  induction l with
  | nil =>
    intro acc d cs h p hp
    exact Or.inl ⟨cs, h, hp⟩
  | cons x t ih =>
    intro acc d cs h p hp
    simp only [List.foldl_cons] at h
    rcases ih _ d cs h p hp with ⟨cs0, hmem, hp0⟩ | h' 
    · rcases addToGroups_sources hmem p hp0 with ⟨cs1, hmem1, hp1⟩ | ⟨hd, hpc⟩
      · exact Or.inl ⟨cs1, hmem1, hp1⟩
      · refine Or.inr (List.mem_cons.mpr (Or.inl ?_))
        rw [hpc, hd]
    · exact Or.inr (List.mem_cons_of_mem _ h')

lemma groupFold_nonempty :
    ∀ (l : List (ℤ × ℤ × List ℚ)) (acc : List (ℤ × List (ℤ × List ℚ))),
      (∀ e ∈ acc, e.2 ≠ []) →
      ∀ e ∈ l.foldl (fun g c => addToGroups g c.2.1 (c.1, c.2.2)) acc, e.2 ≠ [] := by
  intro l
  induction l with
  | nil => intro acc h e he; exact h e he
  | cons x t ih =>
    intro acc h e he
    simp only [List.foldl_cons] at he
    exact ih _ (addToGroups_nonempty h x.2.1 (x.1, x.2.2)) e he

lemma groupFold_keys_nodup :
    ∀ (l : List (ℤ × ℤ × List ℚ)) (acc : List (ℤ × List (ℤ × List ℚ))),
      (acc.map Prod.fst).Nodup →
      ((l.foldl (fun g c => addToGroups g c.2.1 (c.1, c.2.2)) acc).map Prod.fst).Nodup := by
  intro l
  induction l with
  | nil => intro acc h; exact h
  | cons x t ih =>
    intro acc h
    simp only [List.foldl_cons]
    exact ih _ (addToGroups_keys_nodup h x.2.1 (x.1, x.2.2))

lemma groupByDoc_complete {l : List (ℤ × ℤ × List ℚ)} {id d : ℤ} {emb : List ℚ}
    (h : (id, d, emb) ∈ l) :
    ∃ cs, (d, cs) ∈ groupByDoc l ∧ (id, emb) ∈ cs :=
  groupFold_complete l [] id d emb (Or.inr h)

lemma groupByDoc_sound {l : List (ℤ × ℤ × List ℚ)} {d : ℤ} {cs : List (ℤ × List ℚ)}
    (h : (d, cs) ∈ groupByDoc l) : ∀ p ∈ cs, (p.1, d, p.2) ∈ l := by
  intro p hp
  rcases groupFold_sound l [] d cs h p hp with ⟨cs0, hmem, _⟩ | h'
  · simp at hmem
  · exact h'

lemma groupByDoc_nonempty {l : List (ℤ × ℤ × List ℚ)} :
    ∀ e ∈ groupByDoc l, e.2 ≠ [] :=
  groupFold_nonempty l [] (by simp)

lemma groupByDoc_keys_nodup (l : List (ℤ × ℤ × List ℚ)) :
    ((groupByDoc l).map Prod.fst).Nodup :=
  groupFold_keys_nodup l [] (by simp)

/-! ### State lemmas for the indexing run -/

lemma writeBatches_ok (failAt : ℕ → Bool) :
    ∀ (bs : List (List String)) (st : SysState) (n : ℕ) {st' : SysState} {n' : ℕ},
      writeBatches failAt bs st n = .ok (st', n') →
      st'.docs = st.docs ∧ st'.chunks = st.chunks ∧
        st'.written = st.written ++ bs.flatten := by
  intro bs
  induction bs with
  | nil =>
    intro st n st' n' h
    simp only [writeBatches] at h
    obtain ⟨h1, _⟩ := Prod.mk.injEq .. ▸ Except.ok.injEq .. ▸ h
    subst h1
    simp
  | cons b t ih =>
    intro st n st' n' h
    simp only [writeBatches, lshIndexBatch] at h
    by_cases hfail : failAt st.writeCalls
    · simp [hfail] at h
    · simp only [hfail, if_false] at h
      obtain ⟨h1, h2, h3⟩ := ih _ _ h
      refine ⟨h1, h2, ?_⟩
      rw [h3]
      simp [List.append_assoc]

lemma writeBatches_error (failAt : ℕ → Bool) :
    ∀ (bs : List (List String)) (st : SysState) (n : ℕ) {st' : SysState},
      writeBatches failAt bs st n = .error st' →
      st'.docs = st.docs ∧ st'.chunks = st.chunks ∧
        ∃ l, st'.written = st.written ++ l ∧ ∀ x ∈ l, x ∈ bs.flatten := by
  intro bs
  induction bs with
  | nil =>
    intro st n st' h
    simp [writeBatches] at h
  | cons b t ih =>
    intro st n st' h
    simp only [writeBatches, lshIndexBatch] at h
    by_cases hfail : failAt st.writeCalls
    · simp only [hfail, if_true] at h
      have hst : { st with writeCalls := st.writeCalls + 1 } = st' := by
        simpa using h
      subst hst
      exact ⟨rfl, rfl, [], by simp⟩
    · simp only [hfail, if_false] at h
      obtain ⟨h1, h2, l, h3, h4⟩ := ih _ _ h
      refine ⟨h1, h2, b ++ l, ?_, ?_⟩
      · rw [h3]; simp [List.append_assoc]
      · intro x hx
        rcases List.mem_append.mp hx with hx | hx
        · exact List.mem_append.mpr (Or.inl hx)
        · exact List.mem_append.mpr (Or.inr (h4 x hx))

lemma mark_docIndexed_mono {st : SysState} {d : ℤ} (d0 : ℤ)
    (h : docIndexed st d = true) :
    docIndexed (mark_document_as_indexed st d0) d = true := by
  simp only [docIndexed, List.any_eq_true, Bool.and_eq_true, beq_iff_eq] at h ⊢
  obtain ⟨dr, hdr, hid, hind⟩ := h
  refine ⟨if dr.id = d0 then { dr with lsh_indexed := true } else dr, ?_, ?_, ?_⟩
  · exact List.mem_map.mpr ⟨dr, hdr, rfl⟩
  · by_cases hc : dr.id = d0
    · rw [if_pos hc]; exact hid
    · rw [if_neg hc]; exact hid
  · by_cases hc : dr.id = d0
    · rw [if_pos hc]
    · rw [if_neg hc]; exact hind

lemma mark_docIndexed_cases {st : SysState} {d : ℤ} {d0 : ℤ}
    (h : docIndexed (mark_document_as_indexed st d0) d = true) :
    docIndexed st d = true ∨ d = d0 := by
  simp only [docIndexed, mark_document_as_indexed, List.any_eq_true,
    Bool.and_eq_true, beq_iff_eq, List.mem_map] at h
  obtain ⟨dr', ⟨dr, hdr, hmap⟩, hid, hind⟩ := h
  by_cases hc : dr.id = d0
  · simp only [if_pos hc] at hmap
    subst hmap
    simp only at hid
    exact Or.inr (hid ▸ hc ▸ rfl)
  · simp only [if_neg hc] at hmap
    subst hmap
    exact Or.inl (by
      simp only [docIndexed, List.any_eq_true, Bool.and_eq_true, beq_iff_eq]
      exact ⟨dr, hdr, hid, hind⟩)

lemma docIndexed_congr {st st' : SysState} (h : st'.docs = st.docs) (d : ℤ) :
    docIndexed st' d = docIndexed st d := by
  simp [docIndexed, h]

lemma indexDocsLoop_spec (failAt : ℕ → Bool) :
    ∀ (groups : List (ℤ × List (ℤ × List ℚ))) (st : SysState) (n : ℕ),
      (stateOf (indexDocsLoop failAt groups st n)).chunks = st.chunks ∧
      (∀ d, docIndexed st d = true →
        docIndexed (stateOf (indexDocsLoop failAt groups st n)) d = true) ∧
      (∃ l, (stateOf (indexDocsLoop failAt groups st n)).written = st.written ++ l ∧
        ∀ x ∈ l, ∃ g ∈ groups, ∃ c ∈ g.2, x = pyStr c.1) ∧
      (∀ d, docIndexed (stateOf (indexDocsLoop failAt groups st n)) d = true →
        docIndexed st d = true ∨
          ∃ g ∈ groups, g.1 = d ∧
            ∀ c ∈ g.2, pyStr c.1 ∈ (stateOf (indexDocsLoop failAt groups st n)).written) := by
  intro groups
  induction groups with
  | nil =>
    intro st n
    refine ⟨rfl, fun d h => h, ⟨[], by simp [indexDocsLoop, stateOf], by simp⟩,
      fun d h => Or.inl h⟩
  | cons g rest ih =>
    intro st n
    obtain ⟨docId, chs⟩ := g
    simp only [indexDocsLoop]
    cases hw : writeBatches failAt (toBatches BATCH_SIZE (chs.map (fun c => pyStr c.1))) st n with
    | error st' =>
      obtain ⟨hdocs, hchunks, l, hwr, hl⟩ := writeBatches_error failAt _ st n hw
      simp only [stateOf]
      refine ⟨hchunks, ?_, ⟨l, hwr, ?_⟩, ?_⟩
      · intro d h
        rw [docIndexed_congr hdocs]
        exact h
      · intro x hx
        have hxf := hl x hx
        rw [toBatches_flatten (by norm_num [BATCH_SIZE])] at hxf
        obtain ⟨c, hc, hcx⟩ := List.mem_map.mp hxf
        exact ⟨(docId, chs), List.mem_cons_self _ _, c, hc, hcx.symm⟩
      · intro d h
        rw [docIndexed_congr hdocs] at h
        exact Or.inl h
    | ok p =>
      obtain ⟨st', n'⟩ := p
      obtain ⟨hdocs, hchunks, hwr⟩ := writeBatches_ok failAt _ st n hw
      rw [toBatches_flatten (by norm_num [BATCH_SIZE])] at hwr
      obtain ⟨ihchunks, ihmono, ⟨l2, ihwr, ihl⟩, ihmark⟩ :=
        ih (mark_document_as_indexed st' docId) n'
      have hmchunks : (mark_document_as_indexed st' docId).chunks = st'.chunks := rfl
      have hmwritten : (mark_document_as_indexed st' docId).written = st'.written := rfl
      refine ⟨by rw [ihchunks, hmchunks, hchunks], ?_, ?_, ?_⟩
      · intro d h
        refine ihmono d (mark_docIndexed_mono docId ?_)
        rw [docIndexed_congr hdocs]
        exact h
      · refine ⟨chs.map (fun c => pyStr c.1) ++ l2, ?_, ?_⟩
        · rw [ihwr, hmwritten, hwr, List.append_assoc]
        · intro x hx
          rcases List.mem_append.mp hx with hx | hx
          · obtain ⟨c, hc, hcx⟩ := List.mem_map.mp hx
            exact ⟨(docId, chs), List.mem_cons_self _ _, c, hc, hcx.symm⟩
          · obtain ⟨g, hg, c, hc, hcx⟩ := ihl x hx
            exact ⟨g, List.mem_cons_of_mem _ hg, c, hc, hcx⟩
      · intro d h
        rcases ihmark d h with hm | ⟨g, hg, hgd, hgw⟩
        · rcases mark_docIndexed_cases hm with hm' | hm'
          · rw [docIndexed_congr hdocs] at hm'
            exact Or.inl hm'
          · refine Or.inr ⟨(docId, chs), List.mem_cons_self _ _, hm'.symm, ?_⟩
            intro c hc
            rw [ihwr, hmwritten, hwr]
            refine List.mem_append.mpr (Or.inl (List.mem_append.mpr (Or.inr ?_)))
            exact List.mem_map.mpr ⟨c, hc, rfl⟩
        · exact Or.inr ⟨g, List.mem_cons_of_mem _ hg, hgd, hgw⟩

lemma mem_get_unindexed_chunks {st : SysState} {sid : Option String}
    {x : ℤ × ℤ × List ℚ} :
    x ∈ get_unindexed_chunks st sid ↔
      ∃ c ∈ st.chunks, chunkMatches st.docs sid c = true ∧
        x = (c.id, c.docId, c.embedding) := by
  unfold get_unindexed_chunks
  rw [List.mem_map]
  constructor
  · rintro ⟨c, hc, rfl⟩
    rw [mem_stableSortBy, List.mem_filter] at hc
    exact ⟨c, hc.1, hc.2, rfl⟩
  · rintro ⟨c, hc, hmatch, rfl⟩
    exact ⟨c, by rw [mem_stableSortBy, List.mem_filter]; exact ⟨hc, hmatch⟩, rfl⟩

lemma chunkMatches_iff {docs : List DocRow} {sid : Option String} {c : ChunkRow} :
    chunkMatches docs sid c = true ↔
      ∃ d ∈ docs, d.id = c.docId ∧ d.lsh_indexed = false ∧ sessionMatches sid d = true := by
  unfold chunkMatches sessionMatches
  rw [List.any_eq_true]
  constructor
  · rintro ⟨d, hd, hprop⟩
    refine ⟨d, hd, ?_⟩
    revert hprop
    cases sid <;> simp [Bool.and_eq_true, beq_iff_eq, Bool.not_eq_true']
    all_goals tauto
  · rintro ⟨d, hd, h1, h2, h3⟩
    refine ⟨d, hd, ?_⟩
    revert h3
    cases sid <;> simp [Bool.and_eq_true, beq_iff_eq, Bool.not_eq_true', h1, h2]

lemma docIndexed_iff {st : SysState} {d : ℤ} :
    docIndexed st d = true ↔ ∃ dr ∈ st.docs, dr.id = d ∧ dr.lsh_indexed = true := by
  simp [docIndexed]

lemma docIndexed_false_iff {st : SysState} {d : ℤ} :
    docIndexed st d = false ↔ ∀ dr ∈ st.docs, dr.id = d → dr.lsh_indexed = false := by
  rw [← Bool.not_eq_true, docIndexed_iff]
  constructor
  · intro h dr hdr hid
    by_contra hind
    exact h ⟨dr, hdr, hid, Bool.not_eq_false _ ▸ hind⟩
  · rintro h ⟨dr, hdr, hid, hind⟩
    rw [h dr hdr hid] at hind
    exact Bool.false_ne_true hind

lemma index_documents_spec (failAt : ℕ → Bool) (st : SysState) (sid : Option String) :
    (stateOf (index_documents failAt st sid)).chunks = st.chunks ∧
    (∀ d, docIndexed st d = true →
      docIndexed (stateOf (index_documents failAt st sid)) d = true) ∧
    (∃ l, (stateOf (index_documents failAt st sid)).written = st.written ++ l ∧
      ∀ x ∈ l, ∃ g ∈ groupByDoc (get_unindexed_chunks st sid), ∃ c ∈ g.2, x = pyStr c.1) ∧
    (∀ d, docIndexed (stateOf (index_documents failAt st sid)) d = true →
      docIndexed st d = true ∨
        ∃ g ∈ groupByDoc (get_unindexed_chunks st sid), g.1 = d ∧
          ∀ c ∈ g.2, pyStr c.1 ∈ (stateOf (index_documents failAt st sid)).written) := by
  unfold index_documents
  by_cases he : (get_unindexed_chunks st sid).length = 0
  · simp only [he, if_pos rfl]
    exact ⟨rfl, fun d h => h, ⟨[], by simp [stateOf], by simp⟩, fun d h => Or.inl h⟩
  · simp only [if_neg he]
    exact indexDocsLoop_spec failAt _ st 0

/-- C4: `index_documents` gives no partial credit.  If a document is marked
`lsh_indexed` after a run (which may have been aborted by an exception at any
write), then either it was already marked before the run, or every chunk of
that document has been written to the LSH bucket store; and if the document
is not marked after the run, every one of its chunks (for any matching
document row visible to the scan) is selected again by the next
`get_unindexed_chunks` scan. -/
theorem index_documents_no_partial_credit (failAt : ℕ → Bool) (st : SysState)
    (sid : Option String) (d : ℤ) :
    (docIndexed (stateOf (index_documents failAt st sid)) d = true →
      docIndexed st d = true ∨
        ∀ c ∈ st.chunks, c.docId = d →
          pyStr c.id ∈ (stateOf (index_documents failAt st sid)).written) ∧
    (docIndexed (stateOf (index_documents failAt st sid)) d = false →
      ∀ c ∈ st.chunks, c.docId = d →
        ∀ dr ∈ (stateOf (index_documents failAt st sid)).docs,
          dr.id = d → sessionMatches sid dr = true →
          (c.id, c.docId, c.embedding) ∈
            get_unindexed_chunks (stateOf (index_documents failAt st sid)) sid) := by
  obtain ⟨hchunks, hmono, ⟨l, hwr, hl⟩, hmark⟩ := index_documents_spec failAt st sid
  constructor
  · intro h
    rcases hmark d h with hpre | ⟨g, hg, hgd, hgw⟩
    · exact Or.inl hpre
    · right
      intro c hc hcd
      obtain ⟨gd, gcs⟩ := g
      simp only at hgd hgw
      obtain ⟨p, hp⟩ := List.exists_mem_of_ne_nil _ (groupByDoc_nonempty _ hg)
      have hscan := groupByDoc_sound hg p hp
      obtain ⟨c0, hc0, hm0, heq0⟩ := mem_get_unindexed_chunks.mp hscan
      have hc0d : c0.docId = gd := (congrArg (fun y => y.2.1) heq0).symm
      obtain ⟨dr, hdr, hdrid, hdrind, hdrsess⟩ := chunkMatches_iff.mp hm0
      have hcmatch : chunkMatches st.docs sid c = true :=
        chunkMatches_iff.mpr ⟨dr, hdr, by rw [hdrid, hc0d, hgd, hcd], hdrind, hdrsess⟩
      have hcscan : (c.id, c.docId, c.embedding) ∈ get_unindexed_chunks st sid :=
        mem_get_unindexed_chunks.mpr ⟨c, hc, hcmatch, rfl⟩
      obtain ⟨cs, hcs, hcin⟩ := groupByDoc_complete hcscan
      have hcs' : (gd, cs) ∈ groupByDoc (get_unindexed_chunks st sid) := by
        rw [hgd, ← hcd]; exact hcs
      have : cs = gcs := nodup_keys_unique (groupByDoc_keys_nodup _) hcs' hg
      subst this
      exact hgw (c.id, c.embedding) hcin
  · intro h c hc hcd dr hdr hdrid hdrsess
    have hdrind : dr.lsh_indexed = false := docIndexed_false_iff.mp h dr hdr hdrid
    refine mem_get_unindexed_chunks.mpr ⟨c, ?_, ?_, rfl⟩
    · rw [hchunks]; exact hc
    · exact chunkMatches_iff.mpr ⟨dr, hdr, by rw [hdrid, hcd], hdrind, hdrsess⟩

/-- Concrete state for exercising C4: one unindexed document (id 1) with two
chunks (ids 10, 11). -/
def c4State : SysState where
  docs := [⟨1, none, false⟩]
  chunks := [⟨10, 1, 0, [1]⟩, ⟨11, 1, 1, [2]⟩]
  written := []
  writeCalls := 0

/-- Witness for C4: an interrupted run (the first bucket write raises) leaves
document 1 unmarked and its chunks selected again by the next scan, while a
clean run marks the document only with its chunks in the bucket store. -/
theorem index_documents_no_partial_credit_witness :
    ((10 : ℤ), (1 : ℤ), [(1 : ℚ)]) ∈
        get_unindexed_chunks (stateOf (index_documents (fun _ => true) c4State none)) none ∧
    pyStr (10 : ℤ) ∈ (stateOf (index_documents (fun _ => false) c4State none)).written := by
  constructor
  · exact (index_documents_no_partial_credit (fun _ => true) c4State none 1).2
      (by decide) ⟨10, 1, 0, [1]⟩ (by decide) (by decide)
      ⟨1, none, false⟩ (by decide) (by decide) (by decide)
  · rcases (index_documents_no_partial_credit (fun _ => false) c4State none 1).1
      (by decide) with h | h
    · exact absurd h (by decide)
    · exact h ⟨10, 1, 0, [1]⟩ (by decide) (by decide)

/-- C5: if a document is already marked `lsh_indexed`, a further
`index_documents` run selects none of its chunks in the unindexed scan,
keeps the document marked, and writes no bucket entry for any of its chunks
(`drop` isolates the entries written by this run). -/
theorem index_documents_idempotent (failAt : ℕ → Bool) (st : SysState)
    (sid : Option String) (d : ℤ)
    (hdocs : (st.docs.map DocRow.id).Nodup)
    (hids : (st.chunks.map (fun c => pyStr c.id)).Nodup)
    (hd : docIndexed st d = true) :
    (∀ x ∈ get_unindexed_chunks st sid, x.2.1 ≠ d) ∧
    docIndexed (stateOf (index_documents failAt st sid)) d = true ∧
    (∀ c ∈ st.chunks, c.docId = d →
      pyStr c.id ∉ (stateOf (index_documents failAt st sid)).written.drop
        st.written.length) := by
  obtain ⟨hchunks, hmono, ⟨l, hwr, hl⟩, hmark⟩ := index_documents_spec failAt st sid
  have hscan : ∀ x ∈ get_unindexed_chunks st sid, x.2.1 ≠ d := by
    intro x hx hxd
    obtain ⟨c0, hc0, hm0, heq0⟩ := mem_get_unindexed_chunks.mp hx
    obtain ⟨dr, hdr, hdrid, hdrind, _⟩ := chunkMatches_iff.mp hm0
    obtain ⟨dr2, hdr2, hdr2id, hdr2ind⟩ := docIndexed_iff.mp hd
    have hx21 : x.2.1 = c0.docId := congrArg (fun y => y.2.1) heq0
    have hc0d : c0.docId = d := by rw [← hx21, hxd]
    have hsame : dr = dr2 :=
      List.inj_on_of_nodup_map hdocs hdr hdr2 (by rw [hdrid, hdr2id, hc0d])
    rw [hsame, hdr2ind] at hdrind
    simp at hdrind
  refine ⟨hscan, hmono d hd, ?_⟩
  intro c hc hcd hmem
  rw [hwr, List.drop_left] at hmem
  obtain ⟨g, hg, p, hp, hx⟩ := hl _ hmem
  obtain ⟨gd, gcs⟩ := g
  simp only at hp hx
  have hrow := groupByDoc_sound hg p hp
  obtain ⟨c0, hc0, _, heq0⟩ := mem_get_unindexed_chunks.mp hrow
  have hp1 : p.1 = c0.id := congrArg (fun y => y.1) heq0
  have hgd : gd = c0.docId := congrArg (fun y => y.2.1) heq0
  have hgdne : gd ≠ d := hscan _ hrow
  have hcc0 : c = c0 :=
    List.inj_on_of_nodup_map hids hc hc0 (by rw [hx, hp1])
  apply hgdne
  rw [hgd, ← hcc0, hcd]

/-- Concrete state for exercising C5: document 1 already indexed with chunk
10, document 2 unindexed with chunk 20. -/
def c5State : SysState where
  docs := [⟨1, none, true⟩, ⟨2, none, false⟩]
  chunks := [⟨10, 1, 0, [1]⟩, ⟨20, 2, 0, [2]⟩]
  written := []
  writeCalls := 0

/-- Witness for C5 at a concrete state: rerunning the indexer keeps document
1 marked, writes no bucket entry for its chunk 10, and scans none of its
chunks. -/
theorem index_documents_idempotent_witness :
    docIndexed (stateOf (index_documents (fun _ => false) c5State none)) 1 = true ∧
    pyStr (10 : ℤ) ∉ (stateOf (index_documents (fun _ => false) c5State none)).written.drop
        c5State.written.length ∧
    ∀ x ∈ get_unindexed_chunks c5State none, x.2.1 ≠ (1 : ℤ) := by
  have h := index_documents_idempotent (fun _ => false) c5State none 1
    (by decide) (by decide) (by decide)
  exact ⟨h.2.1, h.2.2 ⟨10, 1, 0, [1]⟩ (by decide) (by decide), h.1⟩

/-! ## Ingestion pipeline (`backend/chat_service.py` `handle_upload`,
`backend/db.py` `insert_document` / `insert_chunks`)

`insert_document` and `insert_chunks` run in *separate* transactions, each
with its own `conn.commit()`.  `insert_chunks` first validates that the
chunk and embedding counts agree (raising `ValueError` before touching the
database) and then inserts all chunk rows in a single transaction, so the
chunk rows themselves are all-or-nothing.  Per-file failures in
`handle_upload` are caught and collected; processing continues. -/

/-- Config defaults `CHUNK_SIZE` and `CHUNK_OVERLAP` from config.py. -/
def CHUNK_SIZE : ℤ := 1000

/-- Config default `CHUNK_OVERLAP` from config.py. -/
def CHUNK_OVERLAP : ℤ := 200

/-- Config default `MAX_FILES_PER_SESSION` from config.py. -/
def MAX_FILES_PER_SESSION : ℕ := 5

/-- A row of the `documents` table as written by ingestion. -/
structure IngestDocRow where
  id : ℤ
  filename : String
  mime_type : String
  is_preloaded : Bool
  session : Option String
  deriving DecidableEq

/-- A row of the `document_chunks` table as written by ingestion (the
embedding is stored inline in the row, `NOT NULL`). -/
structure IngestChunkRow where
  docId : ℤ
  chunk_index : ℕ
  content : String
  embedding : List ℚ
  deriving DecidableEq

/-- The persistent store as ingestion sees it; `nextId` models the `SERIAL`
document primary key. -/
structure IngestDb where
  documents : List IngestDocRow
  chunks : List IngestChunkRow
  nextId : ℤ
  deriving DecidableEq

/-- Per-file oracle: the outcome of `read_txt_file` (a
`FileValidationError` or the content), the outcome of `embed_texts` on the
file's chunks, and whether the two insert transactions commit. -/
structure FileSpec where
  name : String
  read_result : Except String String
  embed_result : List String → Except String (List (List ℚ))
  doc_insert_ok : Bool
  chunk_insert_ok : Bool

/-- `insert_document` from db.py: one transaction that inserts the document
row and commits (or raises, leaving the store unchanged). -/
def insert_document (db : IngestDb) (filename mime_type : String)
    (is_preloaded : Bool) (session : Option String) (ok : Bool) :
    Except String (IngestDb × ℤ) :=
  if ok then
    .ok ({ db with
            documents := db.documents ++
              [⟨db.nextId, filename, mime_type, is_preloaded, session⟩],
            nextId := db.nextId + 1 }, db.nextId)
  else .error "Failed to insert document into database"

/-- The chunk rows `insert_chunks` writes for a document: the chunks zipped
positionally with their embeddings, indexed by `enumerate`. -/
def mkChunkRows (docId : ℤ) (chunks : List String) (embeddings : List (List ℚ)) :
    List IngestChunkRow :=
  (chunks.zip embeddings).enum.map (fun p => ⟨docId, p.1, p.2.1, p.2.2⟩)

/-- `insert_chunks` from db.py: raise `ValueError` when the counts differ
(before any database work); otherwise insert every chunk row in one
transaction — on failure the transaction is not committed and no row
persists. -/
def insert_chunks (db : IngestDb) (docId : ℤ) (chunks : List String)
    (embeddings : List (List ℚ)) (ok : Bool) : Except String IngestDb :=
  if chunks.length ≠ embeddings.length then
    .error "Chunks and embeddings must have same length"
  else if ok then
    .ok { db with chunks := db.chunks ++ mkChunkRows docId chunks embeddings }
  else .error "Failed to insert chunks into database"

/-- The body of the per-file loop of `handle_upload` (chat_service.py lines
72-128): read, chunk, embed, check the chunk/embedding counts, insert the
document row, insert the chunk rows; any raised exception is caught and
reported as an error message for the file, leaving the store as the failed
step left it. -/
def processFile (db : IngestDb) (session : String) (f : FileSpec) :
    IngestDb × Option String :=
  match f.read_result with
  | .error msg => (db, some msg)
  | .ok content =>
    match chunk_text content CHUNK_SIZE CHUNK_OVERLAP with
    | .error msg => (db, some msg)
    | .ok chunks =>
      if chunks.isEmpty then (db, some ("No chunks generated from file: " ++ f.name))
      else
        match f.embed_result chunks with
        | .error msg => (db, some msg)
        | .ok embeddings =>
          if chunks.length ≠ embeddings.length then
            (db, some ("Chunk/embedding count mismatch for " ++ f.name))
          else
            match insert_document db f.name "text/plain" false (some session)
                f.doc_insert_ok with
            | .error msg => (db, some msg)
            | .ok (db1, docId) =>
              match insert_chunks db1 docId chunks embeddings f.chunk_insert_ok with
              | .error msg => (db1, some msg)
              | .ok db2 => (db2, none)

/-- `handle_upload(files, session_id)` from chat_service.py: cap the list at
`MAX_FILES_PER_SESSION`, process each file, count successes and collect
error messages. -/
def handle_upload (db : IngestDb) (session : String) (files : List FileSpec) :
    IngestDb × ℕ × List String :=
  if files.isEmpty then (db, 0, ["No files provided"])
  else
    (files.take MAX_FILES_PER_SESSION).foldl
      (fun acc f =>
        let r := processFile acc.1 session f
        match r.2 with
        | none => (r.1, acc.2.1 + 1, acc.2.2)
        | some e => (r.1, acc.2.1, acc.2.2 ++ [e]))
      (db, 0, [])

/-- Empty store used by the ingestion examples. -/
def c6Db : IngestDb := ⟨[], [], 0⟩

/-- A file whose chunk-insert transaction fails after the document row was
committed. -/
def c6File : FileSpec where
  name := "notes.txt"
  read_result := .ok "some document text"
  embed_result := fun chunks => .ok (chunks.map (fun _ => [(1 : ℚ)]))
  doc_insert_ok := true
  chunk_insert_ok := false

/-- C6 (counterexample): a failing chunk insert does **not** abort the whole
document insertion — `insert_document` has already committed in its own
transaction, so the document row persists with no chunks, contradicting
"persists nothing for that document". -/
theorem handle_upload_chunk_failure_counterexample :
    (handle_upload c6Db "sess" [c6File]).1.documents
        = [⟨0, "notes.txt", "text/plain", false, some "sess"⟩] ∧
    (handle_upload c6Db "sess" [c6File]).1.chunks = [] ∧
    (handle_upload c6Db "sess" [c6File]).1 ≠ c6Db := by
  refine ⟨by decide, by decide, by decide⟩

/-- C6 (amended): the count-mismatch check aborts ingestion of a file before
anything is persisted, and the chunk rows are all-or-nothing: either no
chunk row is added for the file, or exactly the file's chunks zipped with
their embeddings (equal counts) are added, with their parent document row
persisted.  (A chunk-insert failure may still leave the already-committed
document row behind, as the counterexample shows.) -/
theorem ingest_atomicity (db : IngestDb) (session : String) (f : FileSpec) :
    (∀ content chunks embeddings,
      f.read_result = .ok content →
      chunk_text content CHUNK_SIZE CHUNK_OVERLAP = .ok chunks →
      f.embed_result chunks = .ok embeddings →
      chunks.length ≠ embeddings.length →
      (processFile db session f).1 = db ∧ (processFile db session f).2.isSome = true) ∧
    (∃ rows, (processFile db session f).1.chunks = db.chunks ++ rows ∧
      (rows = [] ∨ ∃ content chunks embeddings docId,
        f.read_result = .ok content ∧
        chunk_text content CHUNK_SIZE CHUNK_OVERLAP = .ok chunks ∧
        f.embed_result chunks = .ok embeddings ∧
        chunks.length = embeddings.length ∧
        rows = mkChunkRows docId chunks embeddings ∧
        (⟨docId, f.name, "text/plain", false, some session⟩ : IngestDocRow)
          ∈ (processFile db session f).1.documents)) := by
  constructor
  · intro content chunks embeddings hr hc he hne
    simp only [processFile, hr, hc, he]
    by_cases hemp : chunks.isEmpty
    · simp [hemp]
    · simp [hemp, hne]
  · cases hr : f.read_result with
    | error msg => exact ⟨[], by simp [processFile, hr], Or.inl rfl⟩
    | ok content =>
      cases hc : chunk_text content CHUNK_SIZE CHUNK_OVERLAP with
      | error msg => exact ⟨[], by simp [processFile, hr, hc], Or.inl rfl⟩
      | ok chunks =>
        by_cases hemp : chunks.isEmpty
        · exact ⟨[], by simp [processFile, hr, hc, hemp], Or.inl rfl⟩
        · cases he : f.embed_result chunks with
          | error msg => exact ⟨[], by simp [processFile, hr, hc, hemp, he], Or.inl rfl⟩
          | ok embeddings =>
            by_cases hne : chunks.length ≠ embeddings.length
            · exact ⟨[], by simp [processFile, hr, hc, hemp, he, hne], Or.inl rfl⟩
            · by_cases hdoc : f.doc_insert_ok
              · by_cases hch : f.chunk_insert_ok
                · refine ⟨mkChunkRows db.nextId chunks embeddings, ?_, Or.inr ?_⟩
                  · simp [processFile, hr, hc, hemp, he, hne, insert_document, hdoc,
                      insert_chunks, hch]
                  · refine ⟨content, chunks, embeddings, db.nextId, rfl, hc, he,
                      not_not.mp (fun h => hne h), rfl, ?_⟩
                    simp [processFile, hr, hc, hemp, he, hne, insert_document, hdoc,
                      insert_chunks, hch]
                · refine ⟨[], ?_, Or.inl rfl⟩
                  simp [processFile, hr, hc, hemp, he, hne, insert_document, hdoc,
                    insert_chunks, hch]
              · refine ⟨[], ?_, Or.inl rfl⟩
                simp [processFile, hr, hc, hemp, he, hne, insert_document, hdoc]

/-- A file whose embedding gateway answers with the wrong number of vectors. -/
def c6MismatchFile : FileSpec where
  name := "m.txt"
  read_result := .ok "doc"
  embed_result := fun _ => .ok [[1], [2]]
  doc_insert_ok := true
  chunk_insert_ok := true

/-- Witness for the amended C6: a count mismatch persists nothing and is
reported, and the all-or-nothing shape holds at the concrete input. -/
theorem ingest_atomicity_witness :
    ((processFile c6Db "s" c6MismatchFile).1 = c6Db ∧
      (processFile c6Db "s" c6MismatchFile).2.isSome = true) ∧
    ∃ rows, (processFile c6Db "s" c6MismatchFile).1.chunks = c6Db.chunks ++ rows ∧
      (rows = [] ∨ ∃ content chunks embeddings docId,
        c6MismatchFile.read_result = .ok content ∧
        chunk_text content CHUNK_SIZE CHUNK_OVERLAP = .ok chunks ∧
        c6MismatchFile.embed_result chunks = .ok embeddings ∧
        chunks.length = embeddings.length ∧
        rows = mkChunkRows docId chunks embeddings ∧
        (⟨docId, c6MismatchFile.name, "text/plain", false, some "s"⟩ : IngestDocRow)
          ∈ (processFile c6Db "s" c6MismatchFile).1.documents) := by
  have h := ingest_atomicity c6Db "s" c6MismatchFile
  exact ⟨h.1 "doc" ["doc"] [[1], [2]] rfl rfl rfl (by decide), h.2⟩

/-! ## Embedding gateway retries (`backend/embeddings.py`)

Both `embed_texts` (per batch) and `embed_query` run the same
`for attempt in range(MAX_RETRIES)` loop: on failure before the last
attempt the code sleeps `RETRY_DELAY * 2 ** attempt` seconds and retries;
the last failure raises the user-facing message (the spec's
`EmbeddingUnavailable`).  The gateway call is the oracle `f`, indexed by
the attempt number; the returned list records the backoff delays slept. -/

/-- `MAX_RETRIES` from embeddings.py. -/
def MAX_RETRIES : ℕ := 3

/-- `RETRY_DELAY` (seconds) from embeddings.py. -/
def RETRY_DELAY : ℕ := 1

/-- The user-facing message raised by `embed_texts` after retry exhaustion. -/
def embedTextsFailMsg : String :=
  "Failed to generate embeddings. This may be due to API issues. Please check your API key and try again."

/-- The user-facing message raised by `embed_query` after retry exhaustion. -/
def embedQueryFailMsg : String :=
  "Failed to process your question. This may be due to API issues. Please check your connection and try again."

/-- The shared retry loop: `attempt` is the current attempt number, `fuel`
the number of attempts still allowed (initially `MAX_RETRIES`), `delays`
the backoff delays slept so far. -/
def retryLoop (f : ℕ → Except String α) (failMsg : String) :
    ℕ → ℕ → List ℕ → Except String α × List ℕ
  | _, 0, delays => (.error failMsg, delays)
  | attempt, fuel + 1, delays =>
    match f attempt with
    | .ok v => (.ok v, delays)
    | .error _ =>
      if fuel = 0 then (.error failMsg, delays)
      else retryLoop f failMsg (attempt + 1) fuel (delays ++ [RETRY_DELAY * 2 ^ attempt])

/-- The retry loop of `embed_query` (embeddings.py lines 209-248). -/
def embed_query_attempts (f : ℕ → Except String (List ℚ)) :
    Except String (List ℚ) × List ℕ :=
  retryLoop f embedQueryFailMsg 0 MAX_RETRIES []

/-- The retry loop run for one batch inside `embed_texts` (embeddings.py
lines 102-161). -/
def embed_texts_batch_attempts (f : ℕ → Except String (List (List ℚ))) :
    Except String (List (List ℚ)) × List ℕ :=
  retryLoop f embedTextsFailMsg 0 MAX_RETRIES []

lemma retryLoop_policy (f : ℕ → Except String α) (failMsg : String) :
    ((∀ a, a < MAX_RETRIES → (f a).isOk = false) →
      retryLoop f failMsg 0 MAX_RETRIES []
        = (.error failMsg, [RETRY_DELAY * 2 ^ 0, RETRY_DELAY * 2 ^ 1])) ∧
    (∀ a v, a < MAX_RETRIES → (∀ b, b < a → (f b).isOk = false) → f a = .ok v →
      (retryLoop f failMsg 0 MAX_RETRIES []).1 = .ok v) ∧
    (∀ m, (retryLoop f failMsg 0 MAX_RETRIES []).1 = .error m →
      m = failMsg ∧ ∀ a, a < MAX_RETRIES → (f a).isOk = false) := by
  refine ⟨?_, ?_, ?_⟩
  · intro hall
    have h0 := hall 0 (by norm_num [MAX_RETRIES])
    have h1 := hall 1 (by norm_num [MAX_RETRIES])
    have hl2 := hall 2 (by norm_num [MAX_RETRIES])
    rcases hf0 : f 0 with e0 | v0
    · rcases hf1 : f 1 with e1 | v1
      · rcases hf2 : f 2 with e2 | v2
        · simp [MAX_RETRIES, retryLoop, hf0, hf1, hf2]
        · rw [hf2] at hl2; simp [Except.isOk, Except.toBool] at hl2
      · rw [hf1] at h1; simp [Except.isOk, Except.toBool] at h1
    · rw [hf0] at h0; simp [Except.isOk, Except.toBool] at h0
  · intro a v ha hprev hok
    norm_num [MAX_RETRIES] at ha
    interval_cases a
    · simp [MAX_RETRIES, retryLoop, hok]
    · have h0 := hprev 0 (by norm_num)
      rcases hf0 : f 0 with e0 | v0
      · simp [MAX_RETRIES, retryLoop, hf0, hok]
      · rw [hf0] at h0; simp [Except.isOk, Except.toBool] at h0
    · have h0 := hprev 0 (by norm_num)
      have h1 := hprev 1 (by norm_num)
      rcases hf0 : f 0 with e0 | v0
      · rcases hf1 : f 1 with e1 | v1
        · simp [MAX_RETRIES, retryLoop, hf0, hf1, hok]
        · rw [hf1] at h1; simp [Except.isOk, Except.toBool] at h1
      · rw [hf0] at h0; simp [Except.isOk, Except.toBool] at h0
  · intro m hm
    rcases hf0 : f 0 with e0 | v0
    · rcases hf1 : f 1 with e1 | v1
      · rcases hf2 : f 2 with e2 | v2
        · simp [MAX_RETRIES, retryLoop, hf0, hf1, hf2] at hm
          refine ⟨hm.symm, ?_⟩
          intro a ha
          norm_num [MAX_RETRIES] at ha
          interval_cases a <;>
            simp [hf0, hf1, hf2, Except.isOk, Except.toBool]
        · simp [MAX_RETRIES, retryLoop, hf0, hf1, hf2] at hm
      · simp [MAX_RETRIES, retryLoop, hf0, hf1] at hm
    · simp [MAX_RETRIES, retryLoop, hf0] at hm

/-- C9: both `embed_texts` (per batch) and `embed_query` retry the gateway
call up to `MAX_RETRIES` times with doubling backoff delays
(`RETRY_DELAY * 2^attempt`, i.e. 1s then 2s), succeed as soon as an attempt
succeeds, and surface the `EmbeddingUnavailable` user message only after
every attempt has failed. -/
theorem embed_retry_policy (f : ℕ → Except String (List ℚ))
    (g : ℕ → Except String (List (List ℚ))) :
    (((∀ a, a < MAX_RETRIES → (f a).isOk = false) →
      embed_query_attempts f
        = (.error embedQueryFailMsg, [RETRY_DELAY * 2 ^ 0, RETRY_DELAY * 2 ^ 1])) ∧
     (∀ a v, a < MAX_RETRIES → (∀ b, b < a → (f b).isOk = false) → f a = .ok v →
      (embed_query_attempts f).1 = .ok v) ∧
     (∀ m, (embed_query_attempts f).1 = .error m →
      m = embedQueryFailMsg ∧ ∀ a, a < MAX_RETRIES → (f a).isOk = false)) ∧
    (((∀ a, a < MAX_RETRIES → (g a).isOk = false) →
      embed_texts_batch_attempts g
        = (.error embedTextsFailMsg, [RETRY_DELAY * 2 ^ 0, RETRY_DELAY * 2 ^ 1])) ∧
     (∀ a v, a < MAX_RETRIES → (∀ b, b < a → (g b).isOk = false) → g a = .ok v →
      (embed_texts_batch_attempts g).1 = .ok v) ∧
     (∀ m, (embed_texts_batch_attempts g).1 = .error m →
      m = embedTextsFailMsg ∧ ∀ a, a < MAX_RETRIES → (g a).isOk = false)) :=
  ⟨retryLoop_policy f embedQueryFailMsg, retryLoop_policy g embedTextsFailMsg⟩

/-- Witness for C9: an always-failing gateway exhausts the three attempts
with backoff delays 1s and 2s, and a gateway that recovers on the second
attempt succeeds. -/
theorem embed_retry_policy_witness :
    embed_query_attempts (fun _ => .error "timeout")
      = (.error embedQueryFailMsg, [RETRY_DELAY * 2 ^ 0, RETRY_DELAY * 2 ^ 1]) ∧
    (embed_texts_batch_attempts
        (fun a => if a = 0 then .error "timeout" else .ok [[1]])).1 = .ok [[1]] := by
  have h := embed_retry_policy (fun _ => .error "timeout")
    (fun a => if a = 0 then .error "timeout" else .ok [[1]])
  refine ⟨h.1.1 (fun a _ => rfl), h.2.2.1 1 [[1]] (by norm_num [MAX_RETRIES]) ?_ rfl⟩
  intro b hb
  have : b = 0 := by omega
  rw [this]
  rfl

/-! ## Chunker theorems (C7, C8) -/

/-- C7 (counterexample): `chunk_text` validates its parameters only after
the empty-text and short-text early returns, so invalid parameter
combinations (here `overlap = 10 ≥ chunk_size = 5`, and a non-positive
`chunk_size` with negative overlap on empty text) still return a result
instead of raising. -/
theorem chunk_text_invalid_params_counterexample :
    (5 : ℤ) ≤ 10 ∧ chunk_text "Hi" 5 10 = .ok ["Hi"] ∧
    (0 : ℤ) ≤ 0 ∧ (-1 : ℤ) < 0 ∧ chunk_text "" 0 (-1) = .ok [] :=
  ⟨by norm_num, rfl, le_rfl, by norm_num, rfl⟩

/-- C7 (amended): `chunk_text` raises a `ValueError` for every invalid
parameter combination (`chunk_size ≤ 0`, `overlap < 0`, or
`overlap ≥ chunk_size`) whenever the text is non-empty, not
whitespace-only, and longer than `chunk_size`; for blank or short texts the
early returns fire before validation. -/
theorem chunk_text_invalid_params_raise (t : String) (cs ov : ℤ)
    (hinv : cs ≤ 0 ∨ ov < 0 ∨ cs ≤ ov)
    (hb : pyBlank t = false) (hl : cs < (pyLen t : ℤ)) :
    ∃ msg, chunk_text t cs ov = .error msg := by
  unfold chunk_text
  split_ifs with hblank hlen h1 h2 h3
  · exact absurd hblank (by simp [hb])
  · exact absurd hlen (by omega)
  · exact ⟨_, rfl⟩
  · exact ⟨_, rfl⟩
  · exact ⟨_, rfl⟩
  · exfalso
    rcases hinv with h | h | h <;> omega

/-- Witness for the amended C7: text "abcdef" (length 6 > chunk_size 3) with
`overlap = 5 ≥ chunk_size = 3` raises. -/
theorem chunk_text_invalid_params_raise_witness :
    ∃ msg, chunk_text "abcdef" 3 5 = .error msg :=
  chunk_text_invalid_params_raise "abcdef" 3 5 (Or.inr (Or.inr (by norm_num)))
    (by decide) (by decide)

lemma pyLen_pySlice (t : String) (a b : ℕ) :
    pyLen (pySlice t a b) = min (b - a) (pyLen t - a) := by
  simp [pyLen, pySlice]

lemma chunkLoop_spec (t : String) (size step : ℕ) (hstep : 1 ≤ step)
    (hsize : step ≤ size) :
    ∀ (fuel start : ℕ), start < pyLen t → pyLen t - start ≤ fuel →
      ∃ n, 1 ≤ n ∧
        chunkLoop t size step start fuel
          = (List.range n).map
              (fun i => pySlice t (start + i * step) (start + i * step + size)) ∧
        (∀ i, i + 1 < n → start + i * step + size < pyLen t) ∧
        pyLen t ≤ start + (n - 1) * step + size := by
  intro fuel
  induction fuel with
  | zero => intro start h1 h2; omega
  | succ f ih =>
    intro start h1 h2
    by_cases hend : pyLen t ≤ start + size
    · refine ⟨1, le_rfl, ?_, fun i hi => by omega, by simpa using hend⟩
      rw [show List.range 1 = [0] from rfl]
      simp [chunkLoop, h1, hend]
    · push_neg at hend
      have hstart' : start + step < pyLen t := by omega
      have hfuel' : pyLen t - (start + step) ≤ f := by omega
      obtain ⟨n, hn1, heq, hbound, hlast⟩ := ih (start + step) hstart' hfuel'
      refine ⟨n + 1, by omega, ?_, ?_, ?_⟩
      · have hunfold : chunkLoop t size step start (f + 1)
            = pySlice t start (start + size) :: chunkLoop t size step (start + step) f := by
          simp [chunkLoop, h1, not_le.mpr hend]
        rw [hunfold, heq, List.range_succ_eq_map, List.map_cons, List.map_map]
        congr 1
        · norm_num
        · apply List.map_congr_left
          intro i _
          have ha : start + step + i * step = start + (i + 1) * step := by ring
          simp only [Function.comp_apply, Nat.succ_eq_add_one, ha]
      · intro i hi
        cases i with
        | zero => simpa using hend
        | succ j =>
          have hj : j + 1 < n := by omega
          have hb := hbound j hj
          have ha : start + (j + 1) * step = start + step + j * step := by ring
          omega
      · obtain ⟨m, rfl⟩ : ∃ m, n = m + 1 := ⟨n - 1, by omega⟩
        have ha : start + (m + 1) * step = start + step + m * step := by ring
        have hl2 : pyLen t ≤ start + step + m * step + size := by simpa using hlast
        simp only [Nat.add_sub_cancel]
        omega

/-- C8: the sliding-window arithmetic of `chunk_text`: the three specified
examples hold, and in general, for non-blank text longer than `chunk_size`
and valid parameters, the chunks are the windows starting at multiples of
`step = chunk_size − overlap`, every window except the last has length
exactly `chunk_size` and ends strictly inside the text, and the final
window reaches the end of the text. -/
theorem chunk_text_sliding_window :
    chunk_text "" 100 20 = .ok [] ∧
    chunk_text "Short" 100 20 = .ok ["Short"] ∧
    chunk_text "Hello World" 5 2 = .ok ["Hello", "lo Wo", "World"] ∧
    ∀ (t : String) (cs ov : ℤ), 0 < cs → 0 ≤ ov → ov < cs →
      pyBlank t = false → cs < (pyLen t : ℤ) →
      ∃ n, 1 ≤ n ∧
        chunk_text t cs ov = .ok ((List.range n).map (fun i =>
          pySlice t (i * (cs - ov).toNat) (i * (cs - ov).toNat + cs.toNat))) ∧
        (∀ i, i + 1 < n → pyLen (pySlice t (i * (cs - ov).toNat)
            (i * (cs - ov).toNat + cs.toNat)) = cs.toNat) ∧
        pyLen t ≤ (n - 1) * (cs - ov).toNat + cs.toNat := by
  refine ⟨rfl, rfl, rfl, ?_⟩
  intro t cs ov hcs hov hlt hb hlen
  have hstep : 1 ≤ (cs - ov).toNat := by omega
  have hsize : (cs - ov).toNat ≤ cs.toNat := by omega
  have hstart : 0 < pyLen t := by omega
  obtain ⟨n, hn1, heq, hbound, hlast⟩ :=
    chunkLoop_spec t cs.toNat (cs - ov).toNat hstep hsize (pyLen t) 0 hstart (by omega)
  refine ⟨n, hn1, ?_, ?_, ?_⟩
  · unfold chunk_text
    rw [if_neg (by simp [hb]), if_neg (by omega : ¬((pyLen t : ℤ) ≤ cs)),
      if_neg (by omega : ¬(cs ≤ 0)), if_neg (by omega : ¬(ov < 0)),
      if_neg (by omega : ¬(cs ≤ ov)), heq]
    congr 1
    apply List.map_congr_left
    intro i _
    norm_num
  · intro i hi
    have hb' := hbound i hi
    rw [pyLen_pySlice]
    omega
  · simpa using hlast

/-- Witness for the general clause of C8 at text "abcdef", chunk size 3,
overlap 1 (step 2): chunks are the windows at 0, 2, 4. -/
theorem chunk_text_sliding_window_witness :
    ∃ n, 1 ≤ n ∧
      chunk_text "abcdef" 3 1 = .ok ((List.range n).map (fun i =>
        pySlice "abcdef" (i * ((3 : ℤ) - 1).toNat) (i * ((3 : ℤ) - 1).toNat + (3 : ℤ).toNat))) ∧
      (∀ i, i + 1 < n → pyLen (pySlice "abcdef" (i * ((3 : ℤ) - 1).toNat)
          (i * ((3 : ℤ) - 1).toNat + (3 : ℤ).toNat)) = (3 : ℤ).toNat) ∧
      pyLen "abcdef" ≤ (n - 1) * ((3 : ℤ) - 1).toNat + (3 : ℤ).toNat :=
  chunk_text_sliding_window.2.2.2 "abcdef" 3 1 (by norm_num) (by norm_num)
    (by norm_num) (by decide) (by decide)
